import Mathlib

/-!
Verification of the xbslink-ng wire protocol, transport backoff, and bridge
statistics against their natural-language specification.

The Go sources are shallowly embedded: byte strings become `List Nat`
(each element a byte value), machine integers become `Nat` with explicit
`% 2 ^ 64` where overflow matters, the stateful `Codec` becomes a structure
threaded explicitly through the encode/decode functions, and fallible
operations return `Except`.

HMAC-SHA256 comes from Go's standard library (`crypto/hmac`, `crypto/sha256`),
which is outside this repository; it is modelled as an abstract function
`HmacFun` from key and data to a digest, together with the hypothesis
`HmacLen32` that the digest is 32 bytes long (the only property of
HMAC-SHA256 the embedded code depends on).
-/

namespace XBSLink

/-- Byte strings are lists of byte values. -/
abbrev Bytes := List Nat

/-- Abstract model of a keyed MAC: key, then data, to digest. -/
abbrev HmacFun := Bytes → Bytes → Bytes

/-- The MAC digest is always 32 bytes (true of HMAC-SHA256). -/
def HmacLen32 (hm : HmacFun) : Prop := ∀ k d, (hm k d).length = 32

/-! ## Protocol constants (`internal/protocol/protocol.go`) -/

def ProtocolVersion : Nat := 1

def MsgFrame : Nat := 0x00
def MsgHello : Nat := 0x01
def MsgHelloAck : Nat := 0x02
def MsgPing : Nat := 0x03
def MsgPong : Nat := 0x04
def MsgBye : Nat := 0x05

def NonceSize : Nat := 8
def HMACSize : Nat := 32
def ChallengeSize : Nat := 16
def ChallengeRespLen : Nat := 32

def MinHeaderSize : Nat := 1
def MaxFrameSize : Nat := 1514
def MinEthernetFrame : Nat := 14
def HelloPayloadSize : Nat := 2 + ChallengeSize
def HelloAckPayloadSize : Nat := 2 + ChallengeRespLen
def PingPongPayloadSize : Nat := 8

/-- Error kinds of the protocol package (the sentinel `errors.New` values,
plus `InvalidSize` for the frame-size error of `EncodeFrame`). -/
inductive ProtoError where
  | messageTooShort
  | invalidHMAC
  | replayDetected
  | unknownMsgType
  | invalidPayload
  | versionMismatch
  | invalidSize
deriving DecidableEq

/-- Decidable equality for `Except`, so concrete codec runs can be checked
by `decide`. -/
def exceptDecEq {ε α : Type} [DecidableEq ε] [DecidableEq α] :
    (x y : Except ε α) → Decidable (x = y)
  | .error e, .error f =>
    if h : e = f then .isTrue (by rw [h])
    else .isFalse (by intro hc; cases hc; exact h rfl)
  | .error _, .ok _ => .isFalse (by intro hc; cases hc)
  | .ok _, .error _ => .isFalse (by intro hc; cases hc)
  | .ok a, .ok b =>
    if h : a = b then .isTrue (by rw [h])
    else .isFalse (by intro hc; cases hc; exact h rfl)

instance {ε α : Type} [DecidableEq ε] [DecidableEq α] : DecidableEq (Except ε α) :=
  exceptDecEq

/-! ## Big-endian integers (`encoding/binary`) -/

/-- `binary.BigEndian.PutUint64`: the 8 big-endian bytes of `n % 2 ^ 64`. -/
def u64be (n : Nat) : Bytes :=
  [n / 72057594037927936 % 256, n / 281474976710656 % 256,
   n / 1099511627776 % 256, n / 4294967296 % 256,
   n / 16777216 % 256, n / 65536 % 256, n / 256 % 256, n % 256]

/-- `binary.BigEndian.Uint64`: read 8 big-endian bytes. -/
def beUint64 (b : Bytes) : Nat :=
  b.getD 0 0 * 72057594037927936 + b.getD 1 0 * 281474976710656 +
  b.getD 2 0 * 1099511627776 + b.getD 3 0 * 4294967296 +
  b.getD 4 0 * 16777216 + b.getD 5 0 * 65536 + b.getD 6 0 * 256 + b.getD 7 0

/-- `binary.BigEndian.PutUint16`. -/
def u16be (n : Nat) : Bytes := [n / 256 % 256, n % 256]

/-- `binary.BigEndian.Uint16`. -/
def beUint16 (b : Bytes) : Nat := b.getD 0 0 * 256 + b.getD 1 0

/-- Go's `copy(dst, src)`: overwrite the first `min |dst| |src|` bytes of
`dst` with those of `src`, keeping the rest of `dst`. -/
def copyBytes (dst src : Bytes) : Bytes :=
  src.take dst.length ++ dst.drop src.length

/-! ## Codec state -/

/-- `Codec` of `internal/protocol/protocol.go`. -/
structure Codec where
  key : Bytes
  sendNonce : Nat
  recvNonce : Nat
  secureMode : Bool
deriving DecidableEq

/-- `NewCodec`. -/
def NewCodec (key : Bytes) : Codec :=
  { key := key, sendNonce := 0, recvNonce := 0, secureMode := decide (0 < key.length) }

/-- `Codec.nextNonce`: `atomic.AddUint64(&c.sendNonce, 1)` (wrapping at
`2 ^ 64`), returning the incremented value. -/
def Codec.nextNonce (c : Codec) : Nat × Codec :=
  let n := (c.sendNonce + 1) % 2 ^ 64
  (n, { c with sendNonce := n })

/-- `Codec.computeHMAC`: HMAC-SHA256 with the codec's key. -/
def Codec.computeHMAC (hm : HmacFun) (c : Codec) (data : Bytes) : Bytes :=
  hm c.key data

/-- `Codec.verifyHMAC`: `hmac.Equal` is a constant-time byte-slice equality. -/
def Codec.verifyHMAC (hm : HmacFun) (c : Codec) (data sig : Bytes) : Bool :=
  c.computeHMAC hm data == sig

/-- `Codec.encode`: secure wire format `type ‖ nonce ‖ payload ‖ hmac`,
insecure wire format `type ‖ payload`. -/
def Codec.encode (hm : HmacFun) (c : Codec) (msgType : Nat) (payload : Bytes) :
    Bytes × Codec :=
  if c.secureMode then
    let p := c.nextNonce
    let body := msgType :: (u64be p.1 ++ payload)
    (body ++ p.2.computeHMAC hm body, p.2)
  else
    (msgType :: payload, c)

/-- The nonce field of a secure-mode datagram: bytes 1 to 8, big-endian. -/
def wireNonce (data : Bytes) : Nat := beUint64 (data.drop 1)

/-- `Codec.decode` (the private raw layer): header checks, HMAC check,
replay check, and the `recvNonce` store. Returns the message type and the
payload slice, along with the updated codec state. -/
def Codec.decode (hm : HmacFun) (c : Codec) (data : Bytes) :
    Except ProtoError (Nat × Bytes) × Codec :=
  if data.length < MinHeaderSize then (.error .messageTooShort, c)
  else if c.secureMode then
    if data.length < 1 + NonceSize + HMACSize then (.error .messageTooShort, c)
    else
      let msgType := data.getD 0 0
      let nonce := wireNonce data
      let payloadEnd := data.length - HMACSize
      let payload := (data.take payloadEnd).drop 9
      let sig := data.drop payloadEnd
      if c.verifyHMAC hm (data.take payloadEnd) sig then
        if msgType ≠ MsgHello ∧ msgType ≠ MsgHelloAck then
          if nonce > 0 ∧ nonce ≤ c.recvNonce then (.error .replayDetected, c)
          else (.ok (msgType, payload), { c with recvNonce := nonce })
        else (.ok (msgType, payload), c)
      else (.error .invalidHMAC, c)
  else
    (.ok (data.getD 0 0, data.drop 1), c)

/-- `Codec.EncodeFrame`: reject sizes outside `[14, 1514]`, else encode. -/
def Codec.EncodeFrame (hm : HmacFun) (c : Codec) (frame : Bytes) :
    Except ProtoError Bytes × Codec :=
  if frame.length < MinEthernetFrame ∨ frame.length > MaxFrameSize then
    (.error .invalidSize, c)
  else
    let p := c.encode hm MsgFrame frame
    (.ok p.1, p.2)

/-- `Codec.EncodeHello`. The source draws the 16-byte challenge from
`crypto/rand`; the random source is modelled by passing the challenge bytes
as an argument, copied into the 16-byte field exactly as `rand.Read` fills
it. Returns the datagram, the challenge slice, and the updated codec. -/
def Codec.EncodeHello (hm : HmacFun) (c : Codec) (challenge : Bytes) :
    Bytes × Bytes × Codec :=
  let ch := copyBytes (List.replicate ChallengeSize 0) challenge
  let payload := u16be ProtocolVersion ++ ch
  let p := c.encode hm MsgHello payload
  (p.1, ch, p.2)

/-- `Codec.EncodeHelloAck`: payload is `version(2) ‖ response(32)`, where the
response is HMAC-SHA256(key, challenge) in secure mode (copied into the fixed
32-byte field) and 32 zero bytes otherwise. -/
def Codec.EncodeHelloAck (hm : HmacFun) (c : Codec) (challenge : Bytes) :
    Bytes × Codec :=
  let response :=
    if c.secureMode ∧ challenge.length = ChallengeSize then
      copyBytes (List.replicate ChallengeRespLen 0) (c.computeHMAC hm challenge)
    else List.replicate ChallengeRespLen 0
  c.encode hm MsgHelloAck (u16be ProtocolVersion ++ response)

/-- Go's `uint64(ts)` on an `int64`: two's-complement reinterpretation. -/
def toUint64 (i : Int) : Nat := (i % 2 ^ 64).toNat

/-- Go's `int64(n)` on a `uint64`: two's-complement reinterpretation. -/
def toInt64 (n : Nat) : Int := if n < 2 ^ 63 then (n : Int) else (n : Int) - 2 ^ 64

/-- `Codec.EncodePing`. -/
def Codec.EncodePing (hm : HmacFun) (c : Codec) (timestamp : Int) : Bytes × Codec :=
  c.encode hm MsgPing (u64be (toUint64 timestamp))

/-- `Codec.EncodePong`. -/
def Codec.EncodePong (hm : HmacFun) (c : Codec) (timestamp : Int) : Bytes × Codec :=
  c.encode hm MsgPong (u64be (toUint64 timestamp))

/-- `Codec.EncodeBye`. -/
def Codec.EncodeBye (hm : HmacFun) (c : Codec) : Bytes × Codec :=
  c.encode hm MsgBye []

/-- `Message` of `internal/protocol/protocol.go`. -/
structure Message where
  type : Nat
  frame : Bytes := []
  version : Nat := 0
  challenge : Bytes := []
  response : Bytes := []
  timestamp : Int := 0
deriving DecidableEq

/-- `Codec.Decode`: the raw layer followed by the per-type payload parse. -/
def Codec.Decode (hm : HmacFun) (c : Codec) (data : Bytes) :
    Except ProtoError Message × Codec :=
  match c.decode hm data with
  | (.error e, c₁) => (.error e, c₁)
  | (.ok (msgType, payload), c₁) =>
    if msgType = MsgFrame then
      if payload.length < MinEthernetFrame then (.error .invalidPayload, c₁)
      else if payload.length > MaxFrameSize then (.error .invalidPayload, c₁)
      else (.ok { type := msgType, frame := payload }, c₁)
    else if msgType = MsgHello then
      if payload.length < HelloPayloadSize then (.error .invalidPayload, c₁)
      else
        let version := beUint16 payload
        let challenge := (payload.take (2 + ChallengeSize)).drop 2
        if version ≠ ProtocolVersion then (.error .versionMismatch, c₁)
        else (.ok { type := msgType, version := version, challenge := challenge }, c₁)
    else if msgType = MsgHelloAck then
      if payload.length < HelloAckPayloadSize then (.error .invalidPayload, c₁)
      else
        let version := beUint16 payload
        let response := (payload.take (2 + ChallengeRespLen)).drop 2
        if version ≠ ProtocolVersion then (.error .versionMismatch, c₁)
        else (.ok { type := msgType, version := version, response := response }, c₁)
    else if msgType = MsgPing then
      if payload.length < PingPongPayloadSize then (.error .invalidPayload, c₁)
      else (.ok { type := msgType, timestamp := toInt64 (beUint64 payload) }, c₁)
    else if msgType = MsgPong then
      if payload.length < PingPongPayloadSize then (.error .invalidPayload, c₁)
      else (.ok { type := msgType, timestamp := toInt64 (beUint64 payload) }, c₁)
    else if msgType = MsgBye then
      (.ok { type := msgType }, c₁)
    else (.error .unknownMsgType, c₁)

/-- `Codec.VerifyChallengeResponse`. -/
def Codec.VerifyChallengeResponse (hm : HmacFun) (c : Codec)
    (challenge response : Bytes) : Bool :=
  if !c.secureMode then true
  else if challenge.length ≠ ChallengeSize ∨ response.length ≠ ChallengeRespLen then
    false
  else c.computeHMAC hm challenge == response

/-- `Codec.ResetRecvNonce`. -/
def Codec.ResetRecvNonce (c : Codec) : Codec := { c with recvNonce := 0 }

/-! ## Wire-format lemmas -/

/-- The shape of every secure-mode datagram the encoder emits: a type byte,
the big-endian nonce, the payload, and the HMAC over the preceding bytes. -/
def wireKeyed (hm : HmacFun) (k : Bytes) (t nonce : Nat) (payload : Bytes) : Bytes :=
  (t :: (u64be nonce ++ payload)) ++ hm k (t :: (u64be nonce ++ payload))

theorem beUint64_u64be_append (n : Nat) (h : n < 2 ^ 64) (rest : Bytes) :
    beUint64 (u64be n ++ rest) = n := by
  simp only [u64be, beUint64, List.cons_append, List.nil_append,
    List.getD_cons_zero, List.getD_cons_succ]
  omega

theorem length_u64be (n : Nat) : (u64be n).length = 8 := rfl

theorem encode_secure (hm : HmacFun) (c : Codec) (hsec : c.secureMode = true)
    (t : Nat) (p : Bytes) :
    c.encode hm t p =
      (wireKeyed hm c.key t ((c.sendNonce + 1) % 2 ^ 64) p,
       { c with sendNonce := (c.sendNonce + 1) % 2 ^ 64 }) := by
  simp [Codec.encode, hsec, Codec.nextNonce, Codec.computeHMAC, wireKeyed]

theorem encode_insecure (hm : HmacFun) (c : Codec) (hsec : c.secureMode = false)
    (t : Nat) (p : Bytes) :
    c.encode hm t p = (t :: p, c) := by
  simp [Codec.encode, hsec]

/-- What the raw decode layer does on a well-formed secure datagram built
with the decoder's own key. -/
theorem decode_wireKeyed (hm : HmacFun) (hlen : HmacLen32 hm) (c : Codec)
    (hsec : c.secureMode = true) (t nonce : Nat) (p : Bytes) (hn : nonce < 2 ^ 64) :
    c.decode hm (wireKeyed hm c.key t nonce p) =
      if t ≠ MsgHello ∧ t ≠ MsgHelloAck then
        if nonce > 0 ∧ nonce ≤ c.recvNonce then (.error .replayDetected, c)
        else (.ok (t, p), { c with recvNonce := nonce })
      else (.ok (t, p), c) := by
  have hml : (hm c.key (t :: (u64be nonce ++ p))).length = 32 := hlen _ _
  have hbody : (t :: (u64be nonce ++ p)).length = 9 + p.length := by
    simp [length_u64be]; omega
  have hdl : (wireKeyed hm c.key t nonce p).length = 41 + p.length := by
    simp [wireKeyed, hml, length_u64be]; omega
  have htake : (wireKeyed hm c.key t nonce p).take ((wireKeyed hm c.key t nonce p).length - HMACSize) =
      t :: (u64be nonce ++ p) := by
    rw [hdl]
    show ((t :: (u64be nonce ++ p)) ++ _).take (41 + p.length - 32) = _
    rw [List.take_left']
    omega
  have hdrop : (wireKeyed hm c.key t nonce p).drop ((wireKeyed hm c.key t nonce p).length - HMACSize) =
      hm c.key (t :: (u64be nonce ++ p)) := by
    rw [hdl]
    show ((t :: (u64be nonce ++ p)) ++ _).drop (41 + p.length - 32) = _
    rw [List.drop_left']
    omega
  have hnonce : wireNonce (wireKeyed hm c.key t nonce p) = nonce := by
    show beUint64 (((t :: (u64be nonce ++ p)) ++ _).drop 1) = nonce
    rw [List.cons_append, List.drop_succ_cons, List.drop_zero, List.append_assoc]
    exact beUint64_u64be_append nonce hn _
  have hpayload : ((t :: (u64be nonce ++ p)) : Bytes).drop 9 = p := by
    rw [List.drop_succ_cons]
    exact List.drop_left' (length_u64be nonce)
  rw [Codec.decode]
  rw [if_neg (by rw [hdl]; simp [MinHeaderSize])]
  rw [if_pos hsec]
  rw [if_neg (by rw [hdl]; simp [NonceSize, HMACSize])]
  have hhead : (wireKeyed hm c.key t nonce p).getD 0 0 = t := rfl
  simp only [hhead, hnonce, htake, hdrop, hpayload]
  rw [if_pos (by simp [Codec.verifyHMAC, Codec.computeHMAC])]

theorem wireNonce_wireKeyed (hm : HmacFun) (k : Bytes) (t nonce : Nat) (p : Bytes)
    (hn : nonce < 2 ^ 64) : wireNonce (wireKeyed hm k t nonce p) = nonce := by
  show beUint64 (((t :: (u64be nonce ++ p)) ++ _).drop 1) = nonce
  rw [List.cons_append, List.drop_succ_cons, List.drop_zero, List.append_assoc]
  exact beUint64_u64be_append nonce hn _

theorem Decode_of_decode_error (hm : HmacFun) (c : Codec) (data : Bytes)
    (e : ProtoError) (c₁ : Codec) (h : c.decode hm data = (.error e, c₁)) :
    c.Decode hm data = (.error e, c₁) := by
  unfold Codec.Decode
  rw [h]

theorem Decode_state (hm : HmacFun) (c : Codec) (data : Bytes) :
    (c.Decode hm data).2 = (c.decode hm data).2 := by
  unfold Codec.Decode
  split
  · rename_i e c₁ heq
    rw [heq]
  · rename_i t p c₁ heq
    rw [heq]
    repeat' split
    all_goals try rfl
    all_goals dsimp only
    all_goals repeat' split
    all_goals rfl

theorem Decode_ok (hm : HmacFun) (c : Codec) (data : Bytes) (m : Message) (c₁ : Codec)
    (h : c.Decode hm data = (.ok m, c₁)) :
    ∃ p, c.decode hm data = (.ok (m.type, p), c₁) := by
  unfold Codec.Decode at h
  split at h
  · simp at h
  · rename_i t p c₁' heq
    refine ⟨p, ?_⟩
    rw [heq]
    repeat' first | (split at h) | (dsimp only at h)
    all_goals simp_all
    all_goals (rcases h with ⟨h1, h2⟩; subst h1; rfl)

/-- Analysis of every accepted secure-mode datagram at the raw layer: the
type byte is the first byte, a non-handshake acceptance implies the nonce was
zero or strictly above `recvNonce` and is then stored, and handshake types
leave the state untouched. -/
theorem decode_ok_secure (hm : HmacFun) (c : Codec) (data : Bytes)
    (t : Nat) (p : Bytes) (c₁ : Codec) (hsec : c.secureMode = true)
    (h : c.decode hm data = (.ok (t, p), c₁)) :
    t = data.getD 0 0 ∧
    ((t ≠ MsgHello ∧ t ≠ MsgHelloAck) →
        (wireNonce data = 0 ∨ wireNonce data > c.recvNonce) ∧
        c₁ = { c with recvNonce := wireNonce data }) ∧
    (¬ (t ≠ MsgHello ∧ t ≠ MsgHelloAck) → c₁ = c) := by
  simp only [Codec.decode, hsec, if_true] at h
  split at h
  · simp at h
  split at h
  · simp at h
  split at h
  case isTrue =>
    split at h
    case isTrue hnh =>
      split at h
      · simp at h
      case isFalse hrep =>
        simp only [Except.ok.injEq, Prod.mk.injEq] at h
        obtain ⟨⟨ht, hp⟩, hc⟩ := h
        subst ht
        refine ⟨rfl, fun _ => ⟨by omega, ?_⟩, fun hk => absurd hnh hk⟩
        rw [← hc, hsec]
    case isFalse hnh =>
      simp only [Except.ok.injEq, Prod.mk.injEq] at h
      obtain ⟨⟨ht, hp⟩, hc⟩ := h
      subst ht
      exact ⟨rfl, fun hk => absurd hk hnh, fun _ => hc.symm⟩
  · simp at h

/-! ## Transport backoff (`internal/transport/transport.go`) -/

/-- `connectBackoff`: the retry delays in nanoseconds (1 s, 2 s, 5 s, 10 s). -/
def connectBackoff : List Nat :=
  [1000000000, 2000000000, 5000000000, 10000000000]

/-- The index clamp inside `Transport.Connect`: past the end of
`connectBackoff` the last entry is reused. -/
def backoffIndex (attempt : Nat) : Nat :=
  if attempt ≥ connectBackoff.length then connectBackoff.length - 1 else attempt

/-- The delay slept after the failed handshake attempt numbered `attempt`
(0-based), before retry attempt `attempt + 1`. -/
def backoffDelay (attempt : Nat) : Nat :=
  connectBackoff.getD (backoffIndex attempt) 0

/-- The failure path of `Transport.Connect`: each iteration's handshake
attempt fails, the loop sleeps `backoffDelay attempt`, increments `attempt`,
and calls `ResetRecvNonce` on the codec before the next attempt. The network
side effects are elided; `connectRetryTraceAux c attempt n` records, for the
next `n` retries, the pair of the delay slept before a retry and the codec
state at the start of that retry. -/
def connectRetryTraceAux (c : Codec) (attempt : Nat) : Nat → List (Nat × Codec)
  | 0 => []
  | n + 1 =>
    (backoffDelay attempt, c.ResetRecvNonce) ::
      connectRetryTraceAux c.ResetRecvNonce (attempt + 1) n

/-- The first `n` retries of a `Connect` call whose handshake attempts all
fail, starting from codec state `c`. -/
def connectRetryTrace (c : Codec) (n : Nat) : List (Nat × Codec) :=
  connectRetryTraceAux c 0 n

/-! ## Bridge statistics (`internal/bridge/bridge.go`) -/

/-- `Stats`. RTT values are `time.Duration` nanosecond counts. -/
structure Stats where
  TxPackets : Nat := 0
  TxBytes : Nat := 0
  RxPackets : Nat := 0
  RxBytes : Nat := 0
  RTTCurrent : Nat := 0
  RTTAvg : Nat := 0
  rttSamples : List Nat := []
  rttSum : Nat := 0
  lastRTT : Nat := 0
deriving DecidableEq

/-- `Stats.AddRTTSample`: append the sample and add it to the running sum;
past 20 samples evict the oldest, subtracting it from the sum; recompute the
average as sum over count. -/
def Stats.AddRTTSample (s : Stats) (rtt : Nat) : Stats :=
  let samples := s.rttSamples ++ [rtt]
  let sum := s.rttSum + rtt
  let q :=
    if 20 < samples.length then (samples.drop 1, sum - samples.getD 0 0)
    else (samples, sum)
  { s with RTTCurrent := rtt, rttSamples := q.1, rttSum := q.2,
           RTTAvg := q.2 / q.1.length }

/-- `formatNumber`'s `%03d` verb: three-digit zero-padded decimal (its
arguments are always below 1000). -/
def pad3 (n : Nat) : String :=
  if n < 10 then "00" ++ toString n
  else if n < 100 then "0" ++ toString n
  else toString n

/-- `formatNumber` of `internal/bridge/bridge.go`. -/
def formatNumber (n : Nat) : String :=
  if n < 1000 then toString n
  else if n < 1000000 then toString (n / 1000) ++ "," ++ pad3 (n % 1000)
  else toString (n / 1000000) ++ "," ++ pad3 (n / 1000 % 1000) ++ "," ++ pad3 (n % 1000)

/-! ## Concrete instances for witnesses -/

/-- A degenerate MAC with the correct 32-byte output length, used to
instantiate the abstract HMAC function in concrete witnesses. -/
def hmZero : HmacFun := fun _ _ => List.replicate 32 0

theorem hmZero_len32 : HmacLen32 hmZero := by
  intro k d
  simp [hmZero]

/-- Sequential decoding of a list of datagrams in which every datagram is
accepted; `none` if any decode returns an error. -/
def decodeAll (hm : HmacFun) (c : Codec) : List Bytes → Option Codec
  | [] => some c
  | d :: rest =>
    match c.Decode hm d with
    | (.ok _, c₁) => decodeAll hm c₁ rest
    | (.error _, _) => none

/-- The datagrams a keyed encoder with key `k` emits for non-handshake
traffic: a type outside the handshake pair, a nonce stamped by the
pre-incremented send counter (hence in `[1, 2 ^ 64)` until it wraps), and the
wire shape produced by `Codec.encode`. -/
def EncodedBy (hm : HmacFun) (k : Bytes) (d : Bytes) : Prop :=
  ∃ t nonce p, t ≠ MsgHello ∧ t ≠ MsgHelloAck ∧ 1 ≤ nonce ∧ nonce < 2 ^ 64 ∧
    d = wireKeyed hm k t nonce p

/-! ## Claim C1 -/

/-- C1: for every byte string `f` with `14 ≤ |f| ≤ 1514` and every freshly
constructed codec (open mode when the key is empty, keyed mode otherwise),
`EncodeFrame f` succeeds and decoding its output with the same codec
succeeds, yielding a FRAME message whose frame field equals `f`. -/
theorem C1_frame_roundtrip (hm : HmacFun) (hlen : HmacLen32 hm) (key f : Bytes)
    (h14 : 14 ≤ f.length) (h1514 : f.length ≤ 1514) :
    ∃ d c₁ c₂,
      (NewCodec key).EncodeFrame hm f = (.ok d, c₁) ∧
      c₁.Decode hm d = (.ok { type := MsgFrame, frame := f }, c₂) := by
  have hsz : ¬ (f.length < MinEthernetFrame ∨ f.length > MaxFrameSize) := by
    simp only [MinEthernetFrame, MaxFrameSize, not_or, not_lt]
    omega
  by_cases hk : 0 < key.length
  · -- keyed mode
    have hsec : (NewCodec key).secureMode = true := by simp [NewCodec, hk]
    set c₁ : Codec :=
      { key := key, sendNonce := 1, recvNonce := 0, secureMode := true } with hc₁
    have henc : (NewCodec key).EncodeFrame hm f =
        (.ok (wireKeyed hm key MsgFrame 1 f), c₁) := by
      rw [Codec.EncodeFrame, if_neg hsz, encode_secure hm _ hsec]
      simp [NewCodec, hk]
    have hraw : c₁.decode hm (wireKeyed hm key MsgFrame 1 f) =
        (.ok (MsgFrame, f), { c₁ with recvNonce := 1 }) := by
      have h := decode_wireKeyed hm hlen c₁ rfl MsgFrame 1 f (by norm_num)
      rw [if_pos (by simp [MsgFrame, MsgHello, MsgHelloAck])] at h
      rw [if_neg (by simp [hc₁])] at h
      exact h
    refine ⟨wireKeyed hm key MsgFrame 1 f, c₁, { c₁ with recvNonce := 1 }, henc, ?_⟩
    have hf1 : ¬ (f.length < MinEthernetFrame) := by simp only [MinEthernetFrame, not_lt]; omega
    have hf2 : ¬ (f.length > MaxFrameSize) := by simp only [MaxFrameSize, gt_iff_lt, not_lt]; omega
    unfold Codec.Decode
    rw [hraw]
    simp [hf1, hf2]
  · -- open mode
    have hsec : (NewCodec key).secureMode = false := by
      simp [NewCodec, hk]
    have henc : (NewCodec key).EncodeFrame hm f = (.ok (MsgFrame :: f), NewCodec key) := by
      rw [Codec.EncodeFrame, if_neg hsz, encode_insecure hm _ hsec]
    have hraw : (NewCodec key).decode hm (MsgFrame :: f) =
        (.ok (MsgFrame, f), NewCodec key) := by
      rw [Codec.decode, if_neg (by simp [MinHeaderSize]), if_neg (by simp [hsec])]
      rfl
    refine ⟨MsgFrame :: f, NewCodec key, NewCodec key, henc, ?_⟩
    have hf1 : ¬ (f.length < MinEthernetFrame) := by simp only [MinEthernetFrame, not_lt]; omega
    have hf2 : ¬ (f.length > MaxFrameSize) := by simp only [MaxFrameSize, gt_iff_lt, not_lt]; omega
    unfold Codec.Decode
    rw [hraw]
    simp [hf1, hf2]

/-- Concrete instance of C1: the 14-zero-byte frame round-trips through a
fresh keyed codec with key `[7]` under the concrete MAC `hmZero`. -/
theorem C1_frame_roundtrip_witness :
    ∃ d c₁ c₂,
      (NewCodec [7]).EncodeFrame hmZero (List.replicate 14 0) = (.ok d, c₁) ∧
      c₁.Decode hmZero d =
        (.ok { type := MsgFrame, frame := List.replicate 14 0 }, c₂) :=
  C1_frame_roundtrip hmZero hmZero_len32 [7] (List.replicate 14 0)
    (by decide) (by decide)

/-! ## Claim C2 -/

/-- A keyed codec whose `recvNonce` has advanced to 5. -/
def cC2 : Codec := { key := [7], sendNonce := 0, recvNonce := 5, secureMode := true }

/-- A BYE datagram with nonce field 0 and a MAC valid under `cC2`'s key. -/
def dC2 : Bytes := wireKeyed hmZero [7] MsgBye 0 []

/-- C2 counterexample: `Decode` accepts the valid-HMAC non-handshake datagram
`dC2` although its nonce 0 is not strictly greater than the codec's
`recvNonce` 5, and `recvNonce` is overwritten with 0 rather than a larger
nonce. The zero nonce skips the replay comparison but not the store. -/
theorem C2_counterexample :
    cC2.Decode hmZero dC2 =
      (.ok { type := MsgBye },
       { key := [7], sendNonce := 0, recvNonce := 0, secureMode := true }) ∧
    wireNonce dC2 = 0 ∧ ¬ (wireNonce dC2 > cC2.recvNonce) := by
  decide

/-- C2 amended: in keyed mode, every datagram that `Decode` accepts whose
type is neither HELLO nor HELLO_ACK has a nonce that is either 0 or strictly
greater than the codec's `recvNonce` at decode time, and `recvNonce` is then
set to that nonce (a zero nonce therefore resets it to 0). -/
theorem C2_nonce_amended (hm : HmacFun) (c : Codec) (data : Bytes)
    (m : Message) (c₁ : Codec) (hsec : c.secureMode = true)
    (hdec : c.Decode hm data = (.ok m, c₁))
    (ht : m.type ≠ MsgHello ∧ m.type ≠ MsgHelloAck) :
    (wireNonce data = 0 ∨ wireNonce data > c.recvNonce) ∧
    c₁.recvNonce = wireNonce data := by
  obtain ⟨p, hraw⟩ := Decode_ok hm c data m c₁ hdec
  obtain ⟨-, h2, -⟩ := decode_ok_secure hm c data m.type p c₁ hsec hraw
  obtain ⟨ha, hb⟩ := h2 ht
  exact ⟨ha, by rw [hb]⟩

/-- Codec and datagram instantiating the amended C2. -/
def cC2w : Codec := NewCodec [7]

def dC2w : Bytes := wireKeyed hmZero [7] MsgFrame 1 (List.replicate 14 0)

/-- Concrete instance of the amended C2. -/
theorem C2_nonce_amended_witness :
    (wireNonce dC2w = 0 ∨ wireNonce dC2w > cC2w.recvNonce) ∧
    Codec.recvNonce { key := [7], sendNonce := 0, recvNonce := 1, secureMode := true } =
      wireNonce dC2w :=
  C2_nonce_amended hmZero cC2w dC2w { type := MsgFrame, frame := List.replicate 14 0 }
    { key := [7], sendNonce := 0, recvNonce := 1, secureMode := true }
    (by decide) (by decide) (by decide)

/-! ## Claim C3 -/

/-- Invariant of a run in which a keyed decoder accepts a list of datagrams
all produced by a keyed encoder with the same key: the mode and key survive,
`recvNonce` never decreases, and every accepted datagram's nonce is at least
1 and at most the final `recvNonce`. -/
theorem decodeAll_spec (hm : HmacFun) (hlen : HmacLen32 hm) (k : Bytes) :
    ∀ (ds : List Bytes) (c c₁ : Codec),
      c.secureMode = true → c.key = k →
      (∀ d ∈ ds, EncodedBy hm k d) →
      decodeAll hm c ds = some c₁ →
      c₁.secureMode = true ∧ c₁.key = k ∧ c.recvNonce ≤ c₁.recvNonce ∧
        ∀ d ∈ ds, 1 ≤ wireNonce d ∧ wireNonce d ≤ c₁.recvNonce := by
  intro ds
  induction ds with
  | nil =>
    intro c c₁ hs hk _ hda
    simp only [decodeAll, Option.some.injEq] at hda
    subst hda
    exact ⟨hs, hk, le_refl _, by simp⟩
  | cons d rest ih =>
    intro c c₁ hs hk henc hda
    obtain ⟨t, m, p, ht1, ht2, hm1, hm2, hdEq⟩ := henc d (by simp)
    have hraw := decode_wireKeyed hm hlen c hs t m p hm2
    rw [hk] at hraw
    rw [if_pos ⟨ht1, ht2⟩] at hraw
    by_cases hrep : m > 0 ∧ m ≤ c.recvNonce
    · rw [if_pos hrep] at hraw
      have hD := Decode_of_decode_error hm c (wireKeyed hm k t m p) _ _ hraw
      rw [← hdEq] at hD
      simp only [decodeAll, hD] at hda
      exact Option.noConfusion hda
    · rw [if_neg hrep] at hraw
      rcases hD : c.Decode hm d with ⟨res, c'⟩
      have hc' : c' = { key := k, sendNonce := c.sendNonce, recvNonce := m, secureMode := c.secureMode } := by
        have h2 := Decode_state hm c d
        rw [hD, hdEq, hraw] at h2
        exact h2
      rcases res with e | msg
      · simp only [decodeAll, hD] at hda
        exact Option.noConfusion hda
      · simp only [decodeAll, hD] at hda
        have hmgt : c.recvNonce < m := by omega
        obtain ⟨hs₁, hk₁, hle₁, hall₁⟩ :=
          ih c' c₁ (by simp [hc', hs]) (by simp [hc'])
            (fun x hx => henc x (by simp [hx])) hda
        have hc'recv : c'.recvNonce = m := by rw [hc']
        refine ⟨hs₁, hk₁, by omega, ?_⟩
        intro x hx
        rcases List.mem_cons.mp hx with hx | hx
        · subst hx
          rw [hdEq, wireNonce_wireKeyed hm k t m p hm2]
          omega
        · exact hall₁ x hx

/-- C3: with one keyed encoder and one keyed decoder sharing key `k`, after
the decoder has accepted a list of encoder-produced non-handshake datagrams,
decoding any of them again returns `replayDetected` and leaves the decoder's
state — in particular `recvNonce` — unchanged. -/
theorem C3_replay_rejected (hm : HmacFun) (hlen : HmacLen32 hm) (k : Bytes)
    (c₀ c₁ : Codec) (hsec : c₀.secureMode = true) (hkey : c₀.key = k)
    (ds : List Bytes) (henc : ∀ d ∈ ds, EncodedBy hm k d)
    (hacc : decodeAll hm c₀ ds = some c₁)
    (d : Bytes) (hd : d ∈ ds) :
    c₁.Decode hm d = (.error .replayDetected, c₁) := by
  obtain ⟨hs₁, hk₁, -, hall⟩ := decodeAll_spec hm hlen k ds c₀ c₁ hsec hkey henc hacc
  obtain ⟨hge1, hle⟩ := hall d hd
  obtain ⟨t, m, p, ht1, ht2, hm1, hm2, hdEq⟩ := henc d hd
  subst hdEq
  rw [wireNonce_wireKeyed hm k t m p hm2] at hge1 hle
  have hraw := decode_wireKeyed hm hlen c₁ hs₁ t m p hm2
  rw [hk₁] at hraw
  rw [if_pos ⟨ht1, ht2⟩] at hraw
  rw [if_pos ⟨by omega, hle⟩] at hraw
  exact Decode_of_decode_error hm c₁ _ _ _ hraw

/-- The two FRAME datagrams a fresh keyed encoder with key `[1, 2]` emits,
carrying nonces 1 and 2. -/
def dsC3 : List Bytes :=
  [wireKeyed hmZero [1, 2] MsgFrame 1 (List.replicate 14 0),
   wireKeyed hmZero [1, 2] MsgFrame 2 (List.replicate 14 0)]

/-- Concrete instance of C3: after accepting both datagrams of `dsC3`,
re-decoding the first yields `replayDetected` with the state unchanged at
`recvNonce = 2`. -/
theorem C3_replay_rejected_witness :
    Codec.Decode hmZero
        { key := [1, 2], sendNonce := 0, recvNonce := 2, secureMode := true }
        (wireKeyed hmZero [1, 2] MsgFrame 1 (List.replicate 14 0)) =
      (.error .replayDetected,
       { key := [1, 2], sendNonce := 0, recvNonce := 2, secureMode := true }) :=
  C3_replay_rejected hmZero hmZero_len32 [1, 2] (NewCodec [1, 2])
    { key := [1, 2], sendNonce := 0, recvNonce := 2, secureMode := true }
    (by decide) (by decide) dsC3
    (by
      intro d hd
      simp only [dsC3, List.mem_cons, List.not_mem_nil, or_false] at hd
      rcases hd with h | h
      · exact ⟨MsgFrame, 1, List.replicate 14 0, by decide, by decide, by decide,
          by norm_num, h⟩
      · exact ⟨MsgFrame, 2, List.replicate 14 0, by decide, by decide, by decide,
          by norm_num, h⟩)
    (by decide)
    (wireKeyed hmZero [1, 2] MsgFrame 1 (List.replicate 14 0))
    (by simp [dsC3])

/-! ## Claim C4 -/

theorem copyBytes_full (dst src : Bytes) (h : src.length = dst.length) :
    copyBytes dst src = src := by
  unfold copyBytes
  rw [← h, List.take_length, h, List.drop_length, List.append_nil]

theorem decode_wireKeyed_handshake (hm : HmacFun) (hlen : HmacLen32 hm)
    (c : Codec) (hsec : c.secureMode = true) (t nonce : Nat) (p : Bytes)
    (hn : nonce < 2 ^ 64) (ht : t = MsgHello ∨ t = MsgHelloAck) :
    c.decode hm (wireKeyed hm c.key t nonce p) = (.ok (t, p), c) := by
  have h := decode_wireKeyed hm hlen c hsec t nonce p hn
  rw [if_neg (by rcases ht with h' | h' <;> simp [h'])] at h
  exact h

/-- C4: a HELLO or HELLO_ACK produced by a fresh keyed encoder — whose first
wire nonce is 1 — is still accepted by a keyed decoder with the same key
whose `recvNonce` has already advanced past 1, and the decoder state is left
untouched: the handshake types bypass the strictly-increasing nonce check. -/
theorem C4_handshake_exempt (hm : HmacFun) (hlen : HmacLen32 hm) (k : Bytes)
    (hk : k ≠ []) (challenge : Bytes) (hch : challenge.length = 16)
    (c : Codec) (hsec : c.secureMode = true) (hkey : c.key = k)
    (hrn : 1 < c.recvNonce) :
    c.Decode hm ((NewCodec k).EncodeHello hm challenge).1 =
      (.ok { type := MsgHello, version := ProtocolVersion, challenge := challenge }, c) ∧
    c.Decode hm ((NewCodec k).EncodeHelloAck hm challenge).1 =
      (.ok { type := MsgHelloAck, version := ProtocolVersion, response := hm k challenge }, c) := by
  have hk' : 0 < k.length := List.length_pos.mpr hk
  have hsecE : (NewCodec k).secureMode = true := by simp [NewCodec, hk']
  have hcopy : copyBytes (List.replicate ChallengeSize 0) challenge = challenge :=
    copyBytes_full _ _ (by simp [hch, ChallengeSize])
  have htakech : challenge.take 16 = challenge := by
    rw [← hch]
    exact List.take_length challenge
  constructor
  · have henc : ((NewCodec k).EncodeHello hm challenge).1 =
        wireKeyed hm k MsgHello 1 (u16be ProtocolVersion ++ challenge) := by
      show ((NewCodec k).encode hm MsgHello
          (u16be ProtocolVersion ++ copyBytes (List.replicate ChallengeSize 0) challenge)).1 = _
      rw [hcopy, encode_secure hm _ hsecE]
      simp [NewCodec]
    rw [henc]
    have hraw := decode_wireKeyed_handshake hm hlen c hsec MsgHello 1
      (u16be ProtocolVersion ++ challenge) (by norm_num) (Or.inl rfl)
    rw [hkey] at hraw
    unfold Codec.Decode
    rw [hraw]
    have hplen : (u16be ProtocolVersion ++ challenge).length = 18 := by
      simp [u16be, hch]
    simp [MsgHello, MsgFrame, MsgHelloAck, hplen, HelloPayloadSize, ChallengeSize,
      beUint16, u16be, ProtocolVersion, htakech, hch]
  · have hcopy2 : copyBytes (List.replicate ChallengeRespLen 0)
        ((NewCodec k).computeHMAC hm challenge) = hm k challenge :=
      copyBytes_full _ _ (by simp [Codec.computeHMAC, NewCodec, hlen k challenge, ChallengeRespLen])
    have htaker : (hm k challenge).take 32 = hm k challenge := by
      rw [← hlen k challenge]
      exact List.take_length _
    have henc : ((NewCodec k).EncodeHelloAck hm challenge).1 =
        wireKeyed hm k MsgHelloAck 1 (u16be ProtocolVersion ++ hm k challenge) := by
      show ((NewCodec k).encode hm MsgHelloAck
          (u16be ProtocolVersion ++
            (if (NewCodec k).secureMode ∧ challenge.length = ChallengeSize then
              copyBytes (List.replicate ChallengeRespLen 0) ((NewCodec k).computeHMAC hm challenge)
            else List.replicate ChallengeRespLen 0))).1 = _
      rw [if_pos ⟨hsecE, by simpa [ChallengeSize] using hch⟩]
      rw [hcopy2, encode_secure hm _ hsecE]
      simp [NewCodec]
    rw [henc]
    have hraw := decode_wireKeyed_handshake hm hlen c hsec MsgHelloAck 1
      (u16be ProtocolVersion ++ hm k challenge) (by norm_num) (Or.inr rfl)
    rw [hkey] at hraw
    unfold Codec.Decode
    rw [hraw]
    have hplen : (u16be ProtocolVersion ++ hm k challenge).length = 34 := by
      simp [u16be, hlen k challenge]
    simp [MsgHelloAck, MsgFrame, MsgHello, hplen, HelloAckPayloadSize, ChallengeRespLen,
      beUint16, u16be, ProtocolVersion, htaker, hlen k challenge]

/-- A keyed decoder whose `recvNonce` has advanced to 7. -/
def cC4w : Codec := { key := [9], sendNonce := 0, recvNonce := 7, secureMode := true }

/-- Concrete instance of C4: `cC4w` accepts a fresh encoder's HELLO and
HELLO_ACK although their wire nonce 1 is far below its `recvNonce` 7. -/
theorem C4_handshake_exempt_witness :
    cC4w.Decode hmZero ((NewCodec [9]).EncodeHello hmZero (List.replicate 16 3)).1 =
      (.ok { type := MsgHello, version := ProtocolVersion,
             challenge := List.replicate 16 3 }, cC4w) ∧
    cC4w.Decode hmZero ((NewCodec [9]).EncodeHelloAck hmZero (List.replicate 16 3)).1 =
      (.ok { type := MsgHelloAck, version := ProtocolVersion,
             response := hmZero [9] (List.replicate 16 3) }, cC4w) :=
  C4_handshake_exempt hmZero hmZero_len32 [9] (by decide) (List.replicate 16 3)
    (by decide) cC4w (by decide) (by decide) (by decide)

/-! ## Claim C5 -/

/-- C5: for every 16-byte challenge, keyed-mode `VerifyChallengeResponse`
accepts exactly the MAC of the challenge under the codec's key — any other
response, including one whose length is not 32, is rejected — while
open-mode verification accepts every response. -/
theorem C5_verify_challenge (hm : HmacFun) (hlen : HmacLen32 hm) (c : Codec)
    (challenge : Bytes) (hch : challenge.length = 16) (r : Bytes) :
    (c.secureMode = true →
      (c.VerifyChallengeResponse hm challenge r = true ↔ r = hm c.key challenge)) ∧
    (c.secureMode = false → c.VerifyChallengeResponse hm challenge r = true) := by
  refine ⟨fun hsec => ?_, fun hsec => ?_⟩
  · unfold Codec.VerifyChallengeResponse
    rw [hsec]
    simp only [Bool.not_true, Bool.false_eq_true, if_false]
    by_cases hr : r.length = ChallengeRespLen
    · rw [if_neg (by simp [ChallengeSize, ChallengeRespLen, hch, hr])]
      simp only [Codec.computeHMAC, beq_iff_eq]
      exact eq_comm
    · rw [if_pos (Or.inr hr)]
      constructor
      · intro h
        simp at h
      · intro h
        refine absurd ?_ hr
        rw [h, ChallengeRespLen]
        exact hlen c.key challenge
  · unfold Codec.VerifyChallengeResponse
    rw [hsec]
    rfl

/-- Concrete instance of C5: the keyed codec with key `[5]` accepts exactly
the `hmZero` MAC of a fixed 16-byte challenge. -/
theorem C5_verify_challenge_witness :
    (NewCodec [5]).VerifyChallengeResponse hmZero (List.replicate 16 3)
        (hmZero [5] (List.replicate 16 3)) = true ↔
      hmZero [5] (List.replicate 16 3) = hmZero (NewCodec [5]).key (List.replicate 16 3) :=
  (C5_verify_challenge hmZero hmZero_len32 (NewCodec [5]) (List.replicate 16 3)
    (by decide) (hmZero [5] (List.replicate 16 3))).1 (by decide)

/-! ## Claim C6 -/

/-- C6: encoding a frame whose size is outside `[14, 1514]` yields the
`invalidSize` error with the codec unchanged, and whenever the raw layer
decodes a datagram to a FRAME whose payload length is outside `[14, 1514]`,
`Decode` returns the `invalidPayload` error. -/
theorem C6_size_bounds (hm : HmacFun) (c : Codec) :
    (∀ f : Bytes, f.length < 14 ∨ f.length > 1514 →
      c.EncodeFrame hm f = (.error .invalidSize, c)) ∧
    (∀ (data p : Bytes) (c₁ : Codec),
      c.decode hm data = (.ok (MsgFrame, p), c₁) →
      p.length < 14 ∨ p.length > 1514 →
      c.Decode hm data = (.error .invalidPayload, c₁)) := by
  constructor
  · intro f hf
    rw [Codec.EncodeFrame, if_pos (by simpa [MinEthernetFrame, MaxFrameSize] using hf)]
  · intro data p c₁ hraw hp
    unfold Codec.Decode
    rw [hraw]
    rcases hp with hp | hp
    · simp [show p.length < MinEthernetFrame from by simpa [MinEthernetFrame] using hp]
    · have h1 : ¬ (p.length < MinEthernetFrame) := by
        simp only [MinEthernetFrame, not_lt]
        omega
      have h2 : p.length > MaxFrameSize := by simpa [MaxFrameSize] using hp
      simp [h1, h2]

/-- Concrete instance of C6: a 5-byte frame is rejected at encode, and a
keyed FRAME datagram with a 5-byte payload is rejected at decode while the
replay state had already been advanced by the raw layer. -/
theorem C6_size_bounds_witness :
    (NewCodec [3]).EncodeFrame hmZero (List.replicate 5 0) =
      (.error .invalidSize, NewCodec [3]) ∧
    (NewCodec [3]).Decode hmZero (wireKeyed hmZero [3] MsgFrame 1 (List.replicate 5 0)) =
      (.error .invalidPayload,
       { key := [3], sendNonce := 0, recvNonce := 1, secureMode := true }) :=
  ⟨(C6_size_bounds hmZero (NewCodec [3])).1 (List.replicate 5 0) (by decide),
   (C6_size_bounds hmZero (NewCodec [3])).2
     (wireKeyed hmZero [3] MsgFrame 1 (List.replicate 5 0)) (List.replicate 5 0)
     { key := [3], sendNonce := 0, recvNonce := 1, secureMode := true }
     (by decide) (by decide)⟩

/-! ## Claim C7 -/

theorem backoffDelay_values (n : Nat) :
    backoffDelay n = (if n = 0 then 1 else if n = 1 then 2 else if n = 2 then 5 else 10) *
      1000000000 := by
  unfold backoffDelay backoffIndex connectBackoff
  rcases n with _ | _ | _ | _ | n <;> simp

theorem connectRetryTraceAux_spec :
    ∀ (fuel : Nat) (c : Codec) (a n : Nat) (dflt : Nat × Codec), n < fuel →
      (connectRetryTraceAux c a fuel).getD n dflt =
        (backoffDelay (a + n), { c with recvNonce := 0 }) := by
  intro fuel
  induction fuel with
  | zero => intro c a n dflt h; omega
  | succ fuel ih =>
    intro c a n dflt h
    rcases n with _ | n
    · rfl
    · show (connectRetryTraceAux c.ResetRecvNonce (a + 1) fuel).getD n dflt = _
      rw [ih c.ResetRecvNonce (a + 1) n dflt (by omega)]
      rw [show a + 1 + n = a + (n + 1) by omega]
      rfl

/-- C7: in connect mode, while every handshake attempt keeps failing, the
delay slept before retry attempt `n + 1` (index `n`, 0-based) follows the
schedule 1 s, 2 s, 5 s, and then 10 s for every later attempt, and the
codec's `recvNonce` has been reset to 0 at the start of every retry
attempt. -/
theorem C7_connect_backoff (c : Codec) (N n : Nat) (h : n < N) :
    ((connectRetryTrace c N).getD n (0, c)).1 =
      (if n = 0 then 1 else if n = 1 then 2 else if n = 2 then 5 else 10) * 1000000000 ∧
    ((connectRetryTrace c N).getD n (0, c)).2.recvNonce = 0 := by
  unfold connectRetryTrace
  rw [connectRetryTraceAux_spec N c 0 n (0, c) h]
  exact ⟨by rw [Nat.zero_add] at *; exact backoffDelay_values n, rfl⟩

/-- Concrete instance of C7: with six failing attempts, the fifth retry is
delayed 10 s and starts with `recvNonce = 0`. -/
theorem C7_connect_backoff_witness :
    ((connectRetryTrace (NewCodec [7]) 6).getD 4 (0, NewCodec [7])).1 = 10000000000 ∧
    ((connectRetryTrace (NewCodec [7]) 6).getD 4 (0, NewCodec [7])).2.recvNonce = 0 := by
  have h := C7_connect_backoff (NewCodec [7]) 6 4 (by decide)
  norm_num at h
  exact h

/-! ## Claim C8 -/

theorem AddRTTSample_small (s : Stats) (x : Nat) (h : s.rttSamples.length < 20) :
    (s.AddRTTSample x).rttSamples = s.rttSamples ++ [x] ∧
    (s.AddRTTSample x).rttSum = s.rttSum + x ∧
    (s.AddRTTSample x).RTTAvg = (s.rttSum + x) / (s.rttSamples ++ [x]).length := by
  have hc : ¬ (20 < (s.rttSamples ++ [x]).length) := by
    simp
    omega
  simp only [Stats.AddRTTSample]
  rw [if_neg hc]
  exact ⟨rfl, rfl, rfl⟩

theorem AddRTTSample_big (s : Stats) (x : Nat) (h : 20 ≤ s.rttSamples.length) :
    (s.AddRTTSample x).rttSamples = (s.rttSamples ++ [x]).drop 1 ∧
    (s.AddRTTSample x).rttSum = s.rttSum + x - (s.rttSamples ++ [x]).getD 0 0 ∧
    (s.AddRTTSample x).RTTAvg =
      (s.rttSum + x - (s.rttSamples ++ [x]).getD 0 0) /
        ((s.rttSamples ++ [x]).drop 1).length := by
  have hc : 20 < (s.rttSamples ++ [x]).length := by
    simp
    omega
  simp only [Stats.AddRTTSample]
  rw [if_pos hc]
  exact ⟨rfl, rfl, rfl⟩

theorem sum_eq_head_add_tail (l : List Nat) (h : l ≠ []) :
    l.sum = l.getD 0 0 + (l.drop 1).sum := by
  rcases l with - | ⟨a, t⟩
  · exact absurd rfl h
  · simp

/-- Invariant of folding `AddRTTSample` over a list of samples: the window
is the at-most-20-sample suffix of everything seen so far, the running sum
is the sum of the window, and the average is sum over count. -/
theorem AddRTTSample_fold_spec :
    ∀ (l : List Nat) (s : Stats),
      s.rttSamples.length ≤ 20 →
      s.rttSum = s.rttSamples.sum →
      s.RTTAvg = s.rttSum / s.rttSamples.length →
      (l.foldl Stats.AddRTTSample s).rttSamples =
        (s.rttSamples ++ l).drop ((s.rttSamples ++ l).length - 20) ∧
      (l.foldl Stats.AddRTTSample s).rttSamples.length ≤ 20 ∧
      (l.foldl Stats.AddRTTSample s).rttSum =
        (l.foldl Stats.AddRTTSample s).rttSamples.sum ∧
      (l.foldl Stats.AddRTTSample s).RTTAvg =
        (l.foldl Stats.AddRTTSample s).rttSum /
          (l.foldl Stats.AddRTTSample s).rttSamples.length := by
  intro l
  induction l with
  | nil =>
    intro s h1 h2 h3
    refine ⟨?_, h1, h2, h3⟩
    rw [List.append_nil, Nat.sub_eq_zero_of_le h1, List.drop_zero]
    rfl
  | cons x rest ih =>
    intro s h1 h2 h3
    simp only [List.foldl_cons]
    by_cases hlen : s.rttSamples.length < 20
    · obtain ⟨e1, e2, e3⟩ := AddRTTSample_small s x hlen
      have i1 : (s.AddRTTSample x).rttSamples.length ≤ 20 := by
        rw [e1]
        simp
        omega
      have i2 : (s.AddRTTSample x).rttSum = (s.AddRTTSample x).rttSamples.sum := by
        rw [e1, e2, List.sum_append, h2]
        simp
      have i3 : (s.AddRTTSample x).RTTAvg =
          (s.AddRTTSample x).rttSum / (s.AddRTTSample x).rttSamples.length := by
        rw [e1, e2, e3]
      obtain ⟨hA, hB, hC, hD⟩ := ih (s.AddRTTSample x) i1 i2 i3
      refine ⟨?_, hB, hC, hD⟩
      rw [hA, e1, List.append_assoc, List.singleton_append]
    · have hlen20 : 20 ≤ s.rttSamples.length := by omega
      have hne : s.rttSamples ≠ [] := by
        intro hc0
        rw [hc0] at hlen20
        simp at hlen20
      obtain ⟨e1, e2, e3⟩ := AddRTTSample_big s x hlen20
      have hdropA : (s.rttSamples ++ [x]).drop 1 = s.rttSamples.drop 1 ++ [x] := by
        rw [List.drop_append_eq_append_drop]
        rw [show 1 - s.rttSamples.length = 0 by omega, List.drop_zero]
      have hhead : (s.rttSamples ++ [x]).getD 0 0 = s.rttSamples.getD 0 0 := by
        rcases hl : s.rttSamples with - | ⟨a, t⟩
        · exact absurd hl hne
        · rfl
      have i1 : (s.AddRTTSample x).rttSamples.length ≤ 20 := by
        rw [e1]
        simp
        omega
      have i2 : (s.AddRTTSample x).rttSum = (s.AddRTTSample x).rttSamples.sum := by
        rw [e1, e2, hdropA, hhead, List.sum_append, h2,
          sum_eq_head_add_tail s.rttSamples hne]
        simp
        omega
      have i3 : (s.AddRTTSample x).RTTAvg =
          (s.AddRTTSample x).rttSum / (s.AddRTTSample x).rttSamples.length := by
        rw [e1, e2, e3]
      obtain ⟨hA, hB, hC, hD⟩ := ih (s.AddRTTSample x) i1 i2 i3
      refine ⟨?_, hB, hC, hD⟩
      rw [hA, e1]
      have hlhs : (s.rttSamples ++ [x]).drop 1 ++ rest =
          (s.rttSamples ++ x :: rest).drop 1 := by
        rw [hdropA, List.append_assoc, List.singleton_append,
          List.drop_append_eq_append_drop]
        rw [show 1 - s.rttSamples.length = 0 by omega, List.drop_zero]
      rw [hlhs, List.drop_drop]
      congr 1
      simp
      omega

/-- C8: after any sequence of `AddRTTSample` calls on fresh stats, the RTT
window holds at most 20 samples — the most recent ones, in FIFO order, the
oldest being evicted (and subtracted from the running sum) when a 21st
arrives — the running sum equals the sum of the window, and `RTTAvg` equals
that sum divided by the number of samples in the window. -/
theorem C8_rtt_window (l : List Nat) :
    (l.foldl Stats.AddRTTSample {}).rttSamples = l.drop (l.length - 20) ∧
    (l.foldl Stats.AddRTTSample {}).rttSamples.length ≤ 20 ∧
    (l.foldl Stats.AddRTTSample {}).rttSum =
      (l.foldl Stats.AddRTTSample {}).rttSamples.sum ∧
    (l.foldl Stats.AddRTTSample {}).RTTAvg =
      (l.foldl Stats.AddRTTSample {}).rttSum /
        (l.foldl Stats.AddRTTSample {}).rttSamples.length := by
  have h := AddRTTSample_fold_spec l {} (by simp) (by simp) (by simp)
  simpa using h

/-! ## Claim C9 -/

/-- C9, evaluated at the claim's own example: `formatNumber 1234567890`
renders as "1234,567,890" — the leading group keeps four digits with no
comma between the billions and millions groups — instead of the
"1,234,567,890" required by a thousands-separator rendering. The code's
third format branch never splits the `n / 1000000` quotient. -/
theorem C9_formatNumber_billions : formatNumber 1234567890 = "1234,567,890" := by
  decide

/-! ## Claim C10 -/

/-- C10: in keyed mode, once the raw layer accepts a non-handshake datagram
(valid HMAC and passed replay check), the codec state returned by `Decode`
already carries the datagram's nonce in `recvNonce`, even when the per-type
payload validation then fails: a FRAME payload shorter than 14 bytes or a
PING payload shorter than 8 bytes makes `Decode` return `invalidPayload`
while `recvNonce` has nevertheless advanced. -/
theorem C10_nonce_advances_before_payload_check (hm : HmacFun) (c : Codec)
    (data : Bytes) (t : Nat) (p : Bytes) (c₁ : Codec)
    (hsec : c.secureMode = true)
    (hraw : c.decode hm data = (.ok (t, p), c₁))
    (ht : t ≠ MsgHello ∧ t ≠ MsgHelloAck) :
    (c.Decode hm data).2.recvNonce = wireNonce data ∧
    (t = MsgFrame → p.length < MinEthernetFrame →
      (c.Decode hm data).1 = .error .invalidPayload) ∧
    (t = MsgPing → p.length < PingPongPayloadSize →
      (c.Decode hm data).1 = .error .invalidPayload) := by
  obtain ⟨-, h2, -⟩ := decode_ok_secure hm c data t p c₁ hsec hraw
  obtain ⟨-, hc₁⟩ := h2 ht
  have hstate : (c.Decode hm data).2 = c₁ := by rw [Decode_state, hraw]
  refine ⟨by rw [hstate, hc₁], ?_, ?_⟩
  · intro htf hlen
    subst htf
    unfold Codec.Decode
    rw [hraw]
    simp [hlen]
  · intro htp hlen
    subst htp
    unfold Codec.Decode
    rw [hraw]
    simp [MsgPing, MsgFrame, MsgHello, MsgHelloAck, hlen]

/-- Concrete instance of C10: a keyed FRAME datagram with a 5-byte payload
is rejected with `invalidPayload`, yet `recvNonce` has advanced to its
nonce. -/
theorem C10_witness :
    ((NewCodec [3]).Decode hmZero
        (wireKeyed hmZero [3] MsgFrame 1 (List.replicate 5 0))).2.recvNonce =
      wireNonce (wireKeyed hmZero [3] MsgFrame 1 (List.replicate 5 0)) ∧
    ((NewCodec [3]).Decode hmZero
        (wireKeyed hmZero [3] MsgFrame 1 (List.replicate 5 0))).1 =
      .error .invalidPayload :=
  ⟨(C10_nonce_advances_before_payload_check hmZero (NewCodec [3])
      (wireKeyed hmZero [3] MsgFrame 1 (List.replicate 5 0)) MsgFrame
      (List.replicate 5 0)
      { key := [3], sendNonce := 0, recvNonce := 1, secureMode := true }
      (by decide) (by decide) (by decide)).1,
   (C10_nonce_advances_before_payload_check hmZero (NewCodec [3])
      (wireKeyed hmZero [3] MsgFrame 1 (List.replicate 5 0)) MsgFrame
      (List.replicate 5 0)
      { key := [3], sendNonce := 0, recvNonce := 1, secureMode := true }
      (by decide) (by decide) (by decide)).2.1 rfl (by decide)⟩

end XBSLink
